/-
  Verification of the VoidLens uptime monitor core against its
  natural-language specification.

  Shallow embedding of:
  - `HistoryHandler` (src/handlers/history, the rotating chunked
    time-series store for system-status samples);
  - `PingHandler` (src/handlers/ping: probe execution, per-target result
    retention, uptime statistics, and the Discord notification state
    machine).

  File I/O is modelled as a pure chunk store keyed by run number (the
  on-disk `run-N.json` files); network behaviour during a probe is
  modelled as an explicit event argument describing what the environment
  did (response / network error / timeout / thrown exception).
-/
import Mathlib

namespace VoidLens

/-! ## The chunked history store (`HistoryHandler`) -/

/-- `maxEntriesPerFile` from `HistoryHandler` (chunk capacity, 700). -/
def maxEntriesPerFile : Nat := 700

/-- The on-disk cache directory: a set of `run-N.json` files, each holding a
JSON array of records.  Modelled as an association list from run number to
chunk contents; directory order is irrelevant because `loadAllHistory`
sorts by run number. -/
def Disk (α : Type) : Type := List (Nat × List α)

/-- Writing file `run-k.json` replaces its previous contents. -/
def diskWrite {α : Type} (d : Disk α) (k : Nat) (v : List α) : Disk α :=
  (d.filter (fun p => p.1 ≠ k)) ++ [(k, v)]

/-- Reading file `run-k.json` (first entry with key `k`). -/
def diskGet {α : Type} (d : Disk α) (k : Nat) : Option (List α) :=
  (d.find? (fun p => p.1 = k)).map (·.2)

/-- In-memory state of `HistoryHandler`: current run number, entry counter
for the open chunk, the in-memory history buffer, and the cache directory. -/
structure HistoryState (α : Type) where
  currentRunNumber : Nat
  entriesInCurrentFile : Nat
  statusHistory : List α
  disk : Disk α

/-- A freshly constructed `HistoryHandler` over an empty cache directory
(`currentRunNumber = 1`, `entriesInCurrentFile = 0`, empty history). -/
def freshHistory (α : Type) : HistoryState α :=
  { currentRunNumber := 1, entriesInCurrentFile := 0, statusHistory := [], disk := [] }

/-- `saveCache`: write the in-memory buffer to `run-<currentRunNumber>.json`. -/
def saveCache {α : Type} (st : HistoryState α) : Disk α :=
  diskWrite st.disk st.currentRunNumber st.statusHistory

/-- `HistoryHandler.addStatus`: push the record and bump the counter; if the
counter reached `maxEntriesPerFile`, persist the full buffer to the current
run file, then reset the buffer to hold only the just-appended record
(`this.statusHistory = [status]`, `entriesInCurrentFile = 1`) and advance
the run number; otherwise persist the grown buffer. -/
def addStatus {α : Type} (st : HistoryState α) (s : α) : HistoryState α :=
  let hist := st.statusHistory ++ [s]
  let e := st.entriesInCurrentFile + 1
  let d := diskWrite st.disk st.currentRunNumber hist
  if e ≥ maxEntriesPerFile then
    { currentRunNumber := st.currentRunNumber + 1
      entriesInCurrentFile := 1
      statusHistory := [s]
      disk := d }
  else
    { currentRunNumber := st.currentRunNumber
      entriesInCurrentFile := e
      statusHistory := hist
      disk := d }

/-- Appending a whole list of records in order (one `addStatus` per record). -/
def appendAll {α : Type} (st : HistoryState α) (L : List α) : HistoryState α :=
  L.foldl addStatus st

/-- Insertion into a list of run files sorted by run number (ascending). -/
def insertByRun {α : Type} (p : Nat × List α) : List (Nat × List α) → List (Nat × List α)
  | [] => [p]
  | q :: rest => if p.1 ≤ q.1 then p :: q :: rest else q :: insertByRun p rest

/-- The `.sort((a, b) => numA - numB)` over run files in `loadAllHistory`. -/
def sortByRun {α : Type} : List (Nat × List α) → List (Nat × List α)
  | [] => []
  | p :: rest => insertByRun p (sortByRun rest)

/-- `HistoryHandler.loadAllHistory`: read every run file in ascending
run-number order and concatenate their contents. -/
def loadAllHistory {α : Type} (d : Disk α) : List α :=
  ((sortByRun d).map (·.2)).flatten

/-- `HistoryHandler.getLatestStatus`: last record of the in-memory buffer. -/
def getLatestStatus {α : Type} (st : HistoryState α) : Option α :=
  st.statusHistory.getLast?

/-- `HistoryHandler.findLatestRunNumber` (the work done by `initialize` on a
non-empty cache): take the highest run number present, load that file as
the open chunk, and if it already holds at least `maxEntriesPerFile`
entries, advance the run number and zero the entry counter.  Note the
in-memory `statusHistory` buffer is *not* cleared in that branch. -/
def findLatestRunNumber {α : Type} (st : HistoryState α) : HistoryState α :=
  let runFiles := st.disk.map (·.1)
  if runFiles.length > 0 then
    let r := runFiles.foldl max 0
    match diskGet st.disk r with
    | some entries =>
        let st' : HistoryState α :=
          { currentRunNumber := r
            entriesInCurrentFile := entries.length
            statusHistory := entries
            disk := st.disk }
        if entries.length ≥ maxEntriesPerFile then
          { st' with currentRunNumber := r + 1, entriesInCurrentFile := 0 }
        else st'
    | none =>
        { st with currentRunNumber := 1, entriesInCurrentFile := 0 }
  else st

/-! ## The ping service (`PingHandler`) -/

/-- Probe method of a `PingTarget` (`'GET' | 'POST' | 'HEAD' | 'icmp'`). -/
inductive ProbeMethod
  | get
  | post
  | head
  | icmp
deriving DecidableEq, Repr

/-- `PingTarget` from the shared type declarations. -/
structure PingTarget where
  id : String
  name : String
  url : String
  method : ProbeMethod
  timeout : Option Nat
  headers : List (String × String)
  expectedStatus : Option Nat
deriving DecidableEq, Repr

/-- `PingResult` from the shared type declarations.  Timestamps are in
milliseconds (`Date.now()`), kept in `ℤ` so that window cutoffs
(`now - days·86400000`) need no truncation. -/
structure PingResult where
  timestamp : Int
  isUp : Bool
  responseTime : Nat
  statusCode : Nat
  serverInfo : String
  error : String
deriving DecidableEq, Repr

/-- What the network did during one HTTP-family probe.  `response` carries
the status code as delivered (`undefined` is possible in the Node API,
hence `Option`), the `server` header if any, and the elapsed time;
`netError` is a connection-level failure (refused, DNS, reset);
`timeout` fires the request's timeout handler; `thrown` models the
request machinery itself throwing (e.g. `new URL` on a malformed URL),
which rejects the promise awaited by `pingTarget`. -/
inductive HttpEvent
  | response (statusCode : Option Nat) (serverHeader : Option String) (rt : Nat)
  | netError (rt : Nat)
  | timeout
  | thrown (msg : String)
deriving DecidableEq, Repr

/-- What the `ping` child process did during one ICMP probe: produced some
stdout after `rt` milliseconds, or failed to run at all (non-zero exit /
exec error, which `icmpPing` catches). -/
inductive IcmpEvent
  | output (stdout : String) (rt : Nat)
  | failed
deriving DecidableEq, Repr

/-- Result record of the inner `httpPing` promise. -/
structure HttpPingOutcome where
  isUp : Bool
  responseTime : Nat
  statusCode : Nat
  serverInfo : String
deriving DecidableEq, Repr

/-- `PingHandler.httpPing`: resolves normally on a response (up iff a status
code was delivered and it is `< 400`; `expectedStatus` is never consulted),
on a connection error (down, `statusCode = 0`), and on timeout (down,
elapsed time reported as the configured timeout, default 5000 ms); the
promise rejects only when the request machinery throws. -/
def httpPing (t : PingTarget) (ev : HttpEvent) : Except String HttpPingOutcome :=
  match ev with
  | .response sc sh rt =>
      .ok { isUp := match sc with
                    | some c => decide (c < 400)
                    | none => false
            responseTime := rt
            statusCode := sc.getD 0
            serverInfo := sh.getD "" }
  | .netError rt =>
      .ok { isUp := false, responseTime := rt, statusCode := 0, serverInfo := "" }
  | .timeout =>
      .ok { isUp := false, responseTime := t.timeout.getD 5000
            statusCode := 0, serverInfo := "" }
  | .thrown msg => .error msg

/-- The success test `stdout.includes('TTL=') || stdout.includes('ttl=') ||
stdout.includes('time=') || stdout.includes('time<')` of `icmpPing`. -/
def pingOutputUp (stdout : String) : Bool :=
  decide ("TTL=".toList <:+: stdout.toList) || decide ("ttl=".toList <:+: stdout.toList) ||
  decide ("time=".toList <:+: stdout.toList) || decide ("time<".toList <:+: stdout.toList)

/-- `PingHandler.icmpPing`: never rejects — an exec failure is caught and
reported as `isUp = false, responseTime = 0`. -/
def icmpPing (ev : IcmpEvent) : Bool × Nat :=
  match ev with
  | .output stdout rt => (pingOutputUp stdout, rt)
  | .failed => (false, 0)

/-- `PingHandler.pingTarget`: dispatch on the target's method (the event of
the other kind is never consulted), catching any rejection into the
`error` field; all other paths leave `error` as the empty string. -/
def pingTarget (t : PingTarget) (now : Int) (hev : HttpEvent) (iev : IcmpEvent) :
    PingResult :=
  if t.method = .icmp then
    let r := icmpPing iev
    { timestamp := now, isUp := r.1, responseTime := r.2
      statusCode := 0, serverInfo := "", error := "" }
  else
    match httpPing t hev with
    | .ok r =>
        { timestamp := now, isUp := r.isUp, responseTime := r.responseTime
          statusCode := r.statusCode, serverInfo := r.serverInfo, error := "" }
    | .error msg =>
        { timestamp := now, isUp := false, responseTime := 0
          statusCode := 0, serverInfo := "", error := msg }

/-! ### Per-target result retention -/

/-- `maxResultsPerTarget` from `PingHandler` (default 1000). -/
def maxResultsPerTarget : Nat := 1000

/-- `PingHandler.addResult` for one target's series: push, then trim to the
last `maxResultsPerTarget` entries (`slice(-maxResultsPerTarget)`) when the
cap is exceeded. -/
def addResult (l : List PingResult) (r : PingResult) : List PingResult :=
  let l' := l ++ [r]
  if l'.length > maxResultsPerTarget then l'.drop (l'.length - maxResultsPerTarget)
  else l'

/-- Folding a sequence of appends through `addResult`. -/
def addResults (l : List PingResult) (rs : List PingResult) : List PingResult :=
  rs.foldl addResult l

/-- `PingHandler.getResultsForTarget` on one target's series. -/
def getResultsForTarget (l : List PingResult) : List PingResult := l

/-! ### Uptime statistics -/

/-- `PingHandler.calculateUptimePercentage` for one target's series: 0 with
no results at all, else filter to the window `timestamp ≥ now - days·24·60·60·1000`,
0 on an empty window, else `upCount / windowSize × 100` (exact rational
arithmetic standing in for JS number division). -/
def calculateUptimePercentage (results : List PingResult) (now : Int) (days : Nat) : ℚ :=
  if results.length = 0 then 0
  else
    let cutoffTime : Int := now - days * 24 * 60 * 60 * 1000
    let recentResults := results.filter (fun r => r.timestamp ≥ cutoffTime)
    if recentResults.length = 0 then 0
    else
      let upCount := (recentResults.filter (fun r => r.isUp)).length
      (upCount : ℚ) / (recentResults.length : ℚ) * 100

/-! ### The notification state machine -/

/-- The five kinds of Discord notification `sendDiscordNotification` accepts. -/
inductive NotificationType
  | up
  | down
  | slow
  | initialUp
  | initialDown
deriving DecidableEq, Repr

/-- `PingHandler.checkForNotifications` for one target: given the configured
webhook URL (`none` = not configured), the slow-response threshold, the
per-target `lastNotifiedStatus` entry (`none` = first check) and the fresh
result, return the notification sent (if any) and the updated
`lastNotifiedStatus` entry.  Mirrors the source's branch order: webhook
guard, first check, up→down, down→up, slow (state deliberately not
updated), otherwise nothing. -/
def checkForNotifications (webhookUrl : Option String) (slowThreshold : Nat)
    (last : Option Bool) (result : PingResult) : Option NotificationType × Option Bool :=
  match webhookUrl with
  | none => (none, last)
  | some _ =>
    match last with
    | none =>
        (some (if result.isUp then .initialUp else .initialDown), some result.isUp)
    | some prev =>
        if prev && !result.isUp then (some .down, some false)
        else if !prev && result.isUp then (some .up, some true)
        else if result.isUp && decide (result.responseTime > slowThreshold) then
          (some .slow, some prev)
        else (none, some prev)

/-- Feeding a sequence of results through the state machine in order,
collecting the emitted notifications and the final state. -/
def processResults (webhookUrl : Option String) (slowThreshold : Nat) :
    Option Bool → List PingResult → List NotificationType × Option Bool
  | last, [] => ([], last)
  | last, r :: rs =>
      let step := checkForNotifications webhookUrl slowThreshold last r
      let rest := processResults webhookUrl slowThreshold step.2 rs
      (step.1.toList ++ rest.1, rest.2)

/-- Keep only availability-transition notifications (`up` / `down`). -/
def isUpDown : NotificationType → Bool
  | .up => true
  | .down => true
  | _ => false

/-! ### The per-target tick pipeline -/

/-- In-memory state of `PingHandler` for one target: the retained result
series (`results[targetId]`) and the `lastNotifiedStatus[targetId]` entry. -/
structure TargetState where
  results : List PingResult
  last : Option Bool
deriving DecidableEq, Repr

/-- `PingHandler.saveResults`: the only data persisted for a target is its
result series (`JSON.stringify(this.results[targetId])`);
`lastNotifiedStatus` is never written to disk. -/
def saveResults (st : TargetState) : List PingResult := st.results

/-- `PingHandler.loadStoredResults` for one target: adopt the persisted
series and, when it is non-empty, initialize `lastNotifiedStatus` from the
last stored result's `isUp` (left unset otherwise). -/
def loadStoredResults (stored : List PingResult) : TargetState :=
  { results := stored, last := stored.getLast?.map (·.isUp) }

/-- One target's share of a `pingAllTargets` tick, given the probe's result:
append to the retained series, persist, then run the notification check. -/
def processTick (webhookUrl : Option String) (slowThreshold : Nat)
    (st : TargetState) (r : PingResult) : TargetState :=
  { results := addResult st.results r
    last := (checkForNotifications webhookUrl slowThreshold st.last r).2 }

/-! ### Spec-side definitions and concrete fixtures -/

/-- The up/down rule as the specification words it: an `expectedStatus`
override, when present, is honored instead of the `< 400` rule.
(Spec-side definition, for comparison with `httpPing` only.) -/
def specHttpIsUp (t : PingTarget) (sc : Option Nat) : Bool :=
  match t.expectedStatus with
  | some e => sc == some e
  | none => match sc with
            | some c => decide (c < 400)
            | none => false

/-- A target declaring `expectedStatus = 404`. -/
def target404 : PingTarget :=
  { id := "a", name := "A", url := "https://a.example", method := .get
    timeout := none, headers := [], expectedStatus := some 404 }

/-- Failure modes of an HTTP-family probe: connection-level error, timeout,
a thrown exception, or a response whose status is missing or `≥ 400`. -/
def isFailureEvent : HttpEvent → Bool
  | .response sc _ _ => match sc with
                        | some c => decide (400 ≤ c)
                        | none => true
  | .netError _ => true
  | .timeout => true
  | .thrown _ => true

/-- A plain HTTP target with no override. -/
def targetHttp : PingTarget :=
  { id := "g", name := "G", url := "https://g.example", method := .get
    timeout := none, headers := [], expectedStatus := none }

/-- The window filter of `calculateUptimePercentage` (the `recentResults`
local): results with `timestamp ≥ now - days·24·60·60·1000`. -/
def recentResultsIn (results : List PingResult) (now : Int) (days : Nat) :
    List PingResult :=
  results.filter (fun r => r.timestamp ≥ now - days * 24 * 60 * 60 * 1000)

/-- An up result stamped `t` with a 50 ms response. -/
def upAt (t : Int) : PingResult := ⟨t, true, 50, 200, "", ""⟩

/-- A down result stamped `t`. -/
def downAt (t : Int) : PingResult := ⟨t, false, 0, 0, "", ""⟩

/-- `n` distinct up results stamped `0, 1, …, n-1`. -/
def sampleSeries (n : Nat) : List PingResult :=
  (List.range n).map (fun i => upAt (Int.ofNat i))

/-! ## Helper lemmas: notification machine -/

/-- Both projections of the notification check with no webhook configured. -/
theorem checkForNotifications_none (thr : Nat) (last : Option Bool) (r : PingResult) :
    checkForNotifications none thr last r = (none, last) := rfl

/-- With no webhook configured, processing any sequence of results emits
nothing and leaves the state untouched. -/
theorem processResults_none (thr : Nat) :
    ∀ (rs : List PingResult) (last : Option Bool),
      processResults none thr last rs = ([], last)
  | [], _ => rfl
  | _ :: rs, last => by
      simp [processResults, checkForNotifications_none, processResults_none thr rs last]

/-- With a webhook configured, the post-check `lastNotifiedStatus` entry is
always the `isUp` of the result just processed. -/
theorem checkForNotifications_some_snd (u : String) (thr : Nat)
    (last : Option Bool) (r : PingResult) :
    (checkForNotifications (some u) thr last r).2 = some r.isUp := by
  rcases last with _ | prev
  · rfl
  · rcases prev <;> rcases hup : r.isUp <;>
      simp [checkForNotifications, hup, apply_ite Prod.snd]

/-! ## C10 -/

/-- C10: if no webhook URL is configured, processing any probe result sends
no notification and leaves the per-target notification state unchanged; over
any sequence of results the machine emits nothing and never transitions, not
even the first-check `initial-up`/`initial-down` transition. -/
theorem no_webhook_machine_inert (thr : Nat) (last : Option Bool) :
    (∀ r : PingResult, checkForNotifications none thr last r = (none, last)) ∧
    (∀ rs : List PingResult, processResults none thr last rs = ([], last)) :=
  ⟨fun r => checkForNotifications_none thr last r,
   fun rs => processResults_none thr rs last⟩

/-! ## C7 -/

/-- C7: with a webhook configured, a target in the Up state receiving an up
result slower than the threshold triggers a `slow` notification and the
notified state stays Up; consequently a run of consecutive slow ticks emits
one `slow` notification per tick. -/
theorem slow_notifies_without_state_change (u : String) (thr : Nat) (r : PingResult)
    (hup : r.isUp = true) (hslow : thr < r.responseTime) :
    checkForNotifications (some u) thr (some true) r = (some .slow, some true) ∧
    ∀ rs : List PingResult, (∀ x ∈ rs, x.isUp = true ∧ thr < x.responseTime) →
      processResults (some u) thr (some true) rs = (rs.map fun _ => .slow, some true) := by
  have hstep : ∀ x : PingResult, x.isUp = true → thr < x.responseTime →
      checkForNotifications (some u) thr (some true) x = (some .slow, some true) := by
    intro x hx hs
    simp [checkForNotifications, hx, hs]
  refine ⟨hstep r hup hslow, ?_⟩
  intro rs h
  induction rs with
  | nil => rfl
  | cons x rs ih =>
      have hx := h x (List.mem_cons_self x rs)
      simp [processResults, hstep x hx.1 hx.2,
            ih (fun y hy => h y (List.mem_cons_of_mem x hy))]

/-- Witness for C7 at a concrete slow result (1500 ms against the default
1000 ms threshold), repeated for two consecutive ticks. -/
theorem slow_notifies_without_state_change_witness :
    checkForNotifications (some "w") 1000 (some true) ⟨0, true, 1500, 200, "", ""⟩
      = (some .slow, some true) ∧
    processResults (some "w") 1000 (some true)
      [⟨0, true, 1500, 200, "", ""⟩, ⟨60000, true, 1500, 200, "", ""⟩]
      = ([.slow, .slow], some true) := by
  have h := slow_notifies_without_state_change "w" 1000
      ⟨0, true, 1500, 200, "", ""⟩ (by decide) (by decide)
  refine ⟨h.1, ?_⟩
  have h2 := h.2 [⟨0, true, 1500, 200, "", ""⟩, ⟨60000, true, 1500, 200, "", ""⟩]
      (by decide)
  simpa using h2

/-! ## C5 -/

/-- C5 counterexample: for a target declaring `expectedStatus = 404`, a
response with status 404 is classified down by the code (`404 < 400` fails),
while the claimed rule — the override honored instead of `< 400` — would
classify it up.  The declared override is not consulted. -/
theorem expectedStatus_not_honored :
    httpPing target404 (.response (some 404) none 10)
      = .ok { isUp := false, responseTime := 10, statusCode := 404, serverInfo := "" } ∧
    specHttpIsUp target404 (some 404) = true := by
  exact ⟨rfl, rfl⟩

/-- C5 amended: for HTTP-family probes the result's `isUp` is true iff a
response was received with a status code `< 400`; the `expectedStatus`
declaration has no effect whatsoever on the outcome. -/
theorem httpPing_isUp_iff_lt400 :
    (∀ (t : PingTarget) (sc : Option Nat) (sh : Option String) (rt : Nat),
      ∃ out, httpPing t (.response sc sh rt) = .ok out ∧
        (out.isUp = true ↔ ∃ c, sc = some c ∧ c < 400)) ∧
    (∀ (t : PingTarget) (ev : HttpEvent) (e : Option Nat),
      httpPing { t with expectedStatus := e } ev = httpPing t ev) := by
  constructor
  · intro t sc sh rt
    refine ⟨_, rfl, ?_⟩
    rcases sc with _ | c <;> simp
  · intro t ev e
    cases ev <;> rfl

/-! ## C4 -/

/-- C4 counterexample: on a connection-level failure (connection refused /
DNS error) the probe does return a normal result with `isUp = false`, but
the `error` field is left empty — the claim's "errorMessage populated" does
not hold.  (`httpPing` resolves these cases without an error message, so
`pingTarget`'s catch never fires.) -/
theorem probe_failure_error_empty :
    (pingTarget targetHttp 0 (.netError 5) .failed).isUp = false ∧
    (pingTarget targetHttp 0 (.netError 5) .failed).error = "" ∧
    (pingTarget targetHttp 0 .timeout .failed).error = "" := by
  exact ⟨rfl, rfl, rfl⟩

/-- C4 amended: `pingTarget` is total — every failure mode yields a normal
`PingResult` with `isUp = false` rather than a propagated error — but the
`error` field is populated only when the underlying request machinery
throws (e.g. a malformed URL); connection errors, timeouts and error
statuses leave it empty.  ICMP probe invocation failures yield
`isUp = false`, `responseTime = 0` and an empty `error`. -/
theorem probe_never_raises_amended (t : PingTarget) (now : Int)
    (hev : HttpEvent) (iev : IcmpEvent) :
    (t.method ≠ .icmp → isFailureEvent hev = true →
      (pingTarget t now hev iev).isUp = false ∧
      (pingTarget t now hev iev).error
        = (match hev with | .thrown m => m | _ => "")) ∧
    (t.method = .icmp → iev = .failed →
      (pingTarget t now hev iev).isUp = false ∧
      (pingTarget t now hev iev).responseTime = 0 ∧
      (pingTarget t now hev iev).error = "") := by
  constructor
  · intro hm hfail
    rcases hev with ⟨sc, sh, rt⟩ | rt | _ | msg
    · rcases sc with _ | c
      · simp [pingTarget, httpPing, hm]
      · have hc : ¬ c < 400 := by
          simpa [isFailureEvent] using hfail
        simp [pingTarget, httpPing, hm, hc]
    · simp [pingTarget, httpPing, hm]
    · simp [pingTarget, httpPing, hm]
    · simp [pingTarget, httpPing, hm]
  · intro hm hf
    subst hf
    simp [pingTarget, icmpPing, hm]

/-- Witness for C4's amended theorem: a timeout against a plain HTTP target
and an exec failure against an ICMP target. -/
theorem probe_never_raises_amended_witness :
    ((pingTarget targetHttp 0 .timeout .failed).isUp = false ∧
     (pingTarget targetHttp 0 .timeout .failed).error = "") ∧
    ((pingTarget { targetHttp with method := .icmp } 0 .timeout .failed).isUp = false ∧
     (pingTarget { targetHttp with method := .icmp } 0 .timeout .failed).responseTime = 0) := by
  have h1 := (probe_never_raises_amended targetHttp 0 .timeout .failed).1
      (by decide) (by decide)
  have h2 := (probe_never_raises_amended { targetHttp with method := .icmp } 0
      .timeout .failed).2 (by decide) rfl
  exact ⟨⟨h1.1, h1.2⟩, ⟨h2.1, h2.2.1⟩⟩

/-! ## C9 -/

/-- C9: `calculateUptimePercentage` is 0 when the time window holds no
results and otherwise `upCount / windowSize × 100`; all-up windows yield
100, and a window of 3 up and 1 down yields 75. -/
theorem uptimePercentage_spec :
    (∀ (results : List PingResult) (now : Int) (days : Nat),
      ((recentResultsIn results now days).length = 0 →
        calculateUptimePercentage results now days = 0) ∧
      ((recentResultsIn results now days).length ≠ 0 →
        calculateUptimePercentage results now days
          = (((recentResultsIn results now days).filter (fun r => r.isUp)).length : ℚ)
              / ((recentResultsIn results now days).length : ℚ) * 100) ∧
      ((recentResultsIn results now days).length ≠ 0 →
        (∀ r ∈ recentResultsIn results now days, r.isUp) →
        calculateUptimePercentage results now days = 100)) ∧
    calculateUptimePercentage [upAt 0, upAt 1, upAt 2, downAt 3] 10 1 = 75 ∧
    calculateUptimePercentage [] 10 1 = 0 := by
  have key : ∀ (results : List PingResult) (now : Int) (days : Nat),
      calculateUptimePercentage results now days
        = if results.length = 0 then 0
          else if (recentResultsIn results now days).length = 0 then 0
          else (((recentResultsIn results now days).filter (fun r => r.isUp)).length : ℚ)
              / ((recentResultsIn results now days).length : ℚ) * 100 := by
    intro results now days
    rfl
  refine ⟨?_, ?_, rfl⟩
  · intro results now days
    refine ⟨?_, ?_, ?_⟩
    · intro h0
      rw [key]
      by_cases hres : results.length = 0
      · rw [if_pos hres]
      · rw [if_neg hres, if_pos h0]
    · intro h0
      have hres : results.length ≠ 0 := by
        intro hr
        rw [List.length_eq_zero] at hr
        apply h0
        simp [recentResultsIn, hr]
      rw [key, if_neg hres, if_neg h0]
    · intro h0 hall
      have hres : results.length ≠ 0 := by
        intro hr
        rw [List.length_eq_zero] at hr
        apply h0
        simp [recentResultsIn, hr]
      have hfilter : (recentResultsIn results now days).filter (fun r => r.isUp)
          = recentResultsIn results now days :=
        List.filter_eq_self.mpr (fun r hr => by simpa using hall r hr)
      rw [key, if_neg hres, if_neg h0, hfilter,
          div_self (by exact_mod_cast h0), one_mul]
  · norm_num [calculateUptimePercentage, recentResultsIn, upAt, downAt]

/-- Witness for C9 at a concrete all-up window. -/
theorem uptimePercentage_spec_witness :
    calculateUptimePercentage [upAt 0, upAt 1] 10 1 = 100 :=
  (uptimePercentage_spec.1 [upAt 0, upAt 1] 10 1).2.2 (by decide) (by decide)

/-! ## Helper lemmas: retention -/

/-- `addResult` always keeps exactly the last `maxResultsPerTarget`-bounded
suffix: push the record, drop the overflow from the front. -/
theorem addResult_eq_drop (l : List PingResult) (r : PingResult) :
    addResult l r = l.drop (l.length + 1 - maxResultsPerTarget) ++ [r] := by
  unfold addResult
  by_cases h : (l ++ [r]).length > maxResultsPerTarget
  · rw [if_pos h]
    simp only [List.length_append, List.length_singleton, maxResultsPerTarget] at h ⊢
    rw [List.drop_append_of_le_length (by omega)]
  · rw [if_neg h]
    simp only [List.length_append, List.length_singleton, Nat.not_lt,
      maxResultsPerTarget] at h
    have h0 : l.length + 1 - maxResultsPerTarget = 0 := by
      simp only [maxResultsPerTarget]
      omega
    rw [h0, List.drop_zero]

/-- The record just appended is the last retrievable one. -/
theorem addResult_getLast (l : List PingResult) (r : PingResult) :
    (addResult l r).getLast? = some r := by
  rw [addResult_eq_drop]
  exact List.getLast?_concat _

/-- Closed form of a whole run of appends: the capped suffix of the full
append sequence. -/
theorem addResults_eq_drop :
    ∀ (rs l : List PingResult), l.length ≤ maxResultsPerTarget →
      addResults l rs = (l ++ rs).drop ((l ++ rs).length - maxResultsPerTarget)
  | [], l, h => by
      have h0 : l.length - maxResultsPerTarget = 0 := by
        simp only [maxResultsPerTarget] at h ⊢
        omega
      simp [addResults, h0]
  | r :: rs, l, h => by
      have hstep : addResults l (r :: rs) = addResults (addResult l r) rs := rfl
      have hd : l.length + 1 - maxResultsPerTarget ≤ l.length := by
        simp only [maxResultsPerTarget]
        omega
      have hlen : (addResult l r).length ≤ maxResultsPerTarget := by
        rw [addResult_eq_drop]
        simp only [List.length_append, List.length_drop, List.length_singleton,
          maxResultsPerTarget]
        omega
      have ih := addResults_eq_drop rs (addResult l r) hlen
      rw [hstep, ih, addResult_eq_drop]
      have hsplit : (l.drop (l.length + 1 - maxResultsPerTarget) ++ [r]) ++ rs
          = (l ++ r :: rs).drop (l.length + 1 - maxResultsPerTarget) := by
        rw [List.append_assoc, List.singleton_append,
            List.drop_append_of_le_length hd]
      rw [hsplit, List.drop_drop]
      have harith : l.length + 1 - maxResultsPerTarget
          + (((l ++ r :: rs).drop (l.length + 1 - maxResultsPerTarget)).length
              - maxResultsPerTarget)
          = (l ++ r :: rs).length - maxResultsPerTarget := by
        simp only [List.length_drop, List.length_append, List.length_cons,
          maxResultsPerTarget] at h ⊢
        omega
      rw [harith]

/-! ## C8 -/

/-- C8: the retained per-target list never exceeds `maxResultsPerTarget`
after any sequence of appends, and appending `maxResultsPerTarget + k`
results to a fresh series leaves exactly the `maxResultsPerTarget` most
recent ones retrievable, in append order. -/
theorem retention_cap (l rs : List PingResult) (k : Nat)
    (hl : l.length ≤ maxResultsPerTarget)
    (hk : rs.length = maxResultsPerTarget + k) :
    (addResults l rs).length ≤ maxResultsPerTarget ∧
    getResultsForTarget (addResults [] rs) = rs.drop k ∧
    (addResults [] rs).length = maxResultsPerTarget := by
  have hbound : (addResults l rs).length ≤ maxResultsPerTarget := by
    rw [addResults_eq_drop rs l hl]
    simp only [List.length_drop, maxResultsPerTarget]
    omega
  have hnil := addResults_eq_drop rs [] (by simp)
  simp only [List.nil_append] at hnil
  have hkk : rs.length - maxResultsPerTarget = k := by
    simp only [maxResultsPerTarget] at hk ⊢
    omega
  refine ⟨hbound, ?_, ?_⟩
  · rw [getResultsForTarget, hnil, hkk]
  · rw [hnil, hkk, List.length_drop]
    simp only [maxResultsPerTarget] at hk ⊢
    omega

/-- Witness for C8: appending 1001 results leaves exactly the last 1000. -/
theorem retention_cap_witness :
    (sampleSeries 1001).length = maxResultsPerTarget + 1 ∧
    getResultsForTarget (addResults [] (sampleSeries 1001))
      = (sampleSeries 1001).drop 1 ∧
    (addResults [] (sampleSeries 1001)).length = maxResultsPerTarget := by
  have hlen : (sampleSeries 1001).length = 1001 := by
    rw [sampleSeries, List.length_map, List.length_range]
  have h := retention_cap [] (sampleSeries 1001) 1 (by simp)
      (by rw [hlen]; rfl)
  exact ⟨by rw [hlen]; rfl, h.2.1, h.2.2⟩

/-! ## C6 -/

/-- With a webhook configured, one full tick re-establishes the derived-state
invariant regardless of the previous state. -/
theorem processTick_last_derived (u : String) (thr : Nat)
    (st : TargetState) (r : PingResult) :
    (processTick (some u) thr st r).last
      = (processTick (some u) thr st r).results.getLast?.map (·.isUp) := by
  simp [processTick, checkForNotifications_some_snd, addResult_getLast]

/-- The derived-state invariant survives any run of ticks. -/
theorem foldl_processTick_last_derived (u : String) (thr : Nat) :
    ∀ (rs : List PingResult) (st : TargetState),
      st.last = st.results.getLast?.map (·.isUp) →
      (rs.foldl (processTick (some u) thr) st).last
        = (rs.foldl (processTick (some u) thr) st).results.getLast?.map (·.isUp)
  | [], _, h => h
  | r :: rs, st, _ =>
      foldl_processTick_last_derived u thr rs
        (processTick (some u) thr st r) (processTick_last_derived u thr st r)

/-- C6 amended: with a webhook configured, the per-target notification state
is a value derived from the stored series — at startup it is reconstructed
as the `isUp` of the last stored result, after any run of processed results
it equals the `isUp` of the latest retained result, and reloading from the
persisted series (which contains the results alone, never the state)
reconstructs the state exactly. -/
theorem last_notified_reconstructable (u : String) (thr : Nat)
    (stored rs : List PingResult) :
    (loadStoredResults stored).last = stored.getLast?.map (·.isUp) ∧
    (rs.foldl (processTick (some u) thr) (loadStoredResults stored)).last
      = (rs.foldl (processTick (some u) thr)
          (loadStoredResults stored)).results.getLast?.map (·.isUp) ∧
    loadStoredResults
        (saveResults (rs.foldl (processTick (some u) thr) (loadStoredResults stored)))
      = rs.foldl (processTick (some u) thr) (loadStoredResults stored) := by
  have hinv := foldl_processTick_last_derived u thr rs (loadStoredResults stored) rfl
  refine ⟨rfl, hinv, ?_⟩
  cases hst : rs.foldl (processTick (some u) thr) (loadStoredResults stored) with
  | mk res lst =>
      rw [hst] at hinv
      simp only [saveResults, loadStoredResults]
      simp only at hinv
      rw [hinv]

/-- C6 counterexample: with no webhook configured, the state is never
updated — starting from a stored series ending up, processing a down result
leaves the state `some true` while the latest stored result is down. -/
theorem last_notified_stale_without_webhook :
    (processTick none 1000 (loadStoredResults [upAt 0]) (downAt 60000)).last
      = some true ∧
    (processTick none 1000 (loadStoredResults [upAt 0])
        (downAt 60000)).results.getLast?.map (·.isUp) = some false := by
  exact ⟨rfl, rfl⟩

/-! ## Helper lemmas: transition alternation -/

/-- From a settled state `some b`, the availability transitions a result
sequence can emit strictly alternate, and the first one (if any) is `down`
from an Up state and `up` from a Down state. -/
theorem processResults_some_alternates (u : String) (thr : Nat) :
    ∀ (rs : List PingResult) (b : Bool),
      List.Chain' (· ≠ ·)
        ((processResults (some u) thr (some b) rs).1.filter isUpDown) ∧
      (∀ x, ((processResults (some u) thr (some b) rs).1.filter isUpDown).head?
          = some x → x = (if b then NotificationType.down else NotificationType.up))
  | [], b => by simp [processResults]
  | r :: rs, b => by
      rcases b <;> rcases hup : r.isUp
      · -- Down state, down result: no emission, state stays Down
        have ih := processResults_some_alternates u thr rs false
        simpa [processResults, checkForNotifications, hup, isUpDown] using ih
      · -- Down state, up result: emits `up`, state becomes Up
        have ih := processResults_some_alternates u thr rs true
        have hfilter : (processResults (some u) thr (some false) (r :: rs)).1.filter
              isUpDown
            = NotificationType.up
                :: (processResults (some u) thr (some true) rs).1.filter isUpDown := by
          simp [processResults, checkForNotifications, hup, isUpDown]
        refine ⟨?_, ?_⟩
        · rw [hfilter, List.chain'_cons']
          refine ⟨?_, ih.1⟩
          intro y hy
          have hy' := ih.2 y hy
          simp only [if_pos] at hy'
          simp [hy']
        · intro x hx
          rw [hfilter] at hx
          simp only [List.head?_cons, Option.some.injEq] at hx
          simp [← hx]
      · -- Up state, down result: emits `down`, state becomes Down
        have ih := processResults_some_alternates u thr rs false
        have hfilter : (processResults (some u) thr (some true) (r :: rs)).1.filter
              isUpDown
            = NotificationType.down
                :: (processResults (some u) thr (some false) rs).1.filter isUpDown := by
          simp [processResults, checkForNotifications, hup, isUpDown]
        refine ⟨?_, ?_⟩
        · rw [hfilter, List.chain'_cons']
          refine ⟨?_, ih.1⟩
          intro y hy
          have hy' := ih.2 y hy
          simp only [Bool.false_eq_true, if_neg] at hy'
          simp [hy']
        · intro x hx
          rw [hfilter] at hx
          simp only [List.head?_cons, Option.some.injEq] at hx
          simp [← hx]
      · -- Up state, up result: emits `slow` or nothing, state stays Up
        have ih := processResults_some_alternates u thr rs true
        by_cases hslow : thr < r.responseTime
        · simpa [processResults, checkForNotifications, hup, hslow, isUpDown] using ih
        · simpa [processResults, checkForNotifications, hup, hslow, isUpDown] using ih

/-! ## C3 -/

/-- C3: for every webhook configuration, initial state and sequence of
results processed in order, the stream of emitted availability transitions
(`down` and `up`/recovery, ignoring `slow` and the one-off initial
notifications) strictly alternates: never two consecutive `down`s without
an intervening `up`, and never two consecutive `up`s without an
intervening `down`. -/
theorem transitions_alternate (w : Option String) (thr : Nat)
    (last : Option Bool) (rs : List PingResult) :
    List.Chain' (· ≠ ·) ((processResults w thr last rs).1.filter isUpDown) := by
  rcases w with _ | u
  · rw [processResults_none]
    simp
  · rcases last with _ | b
    · rcases rs with _ | ⟨r, rs⟩
      · simp [processResults]
      · have h := (processResults_some_alternates u thr rs r.isUp).1
        rcases hup : r.isUp <;>
          simpa [processResults, checkForNotifications, hup, isUpDown] using h
    · exact (processResults_some_alternates u thr rs b).1

/-! ## Helper lemmas: chunk store -/

/-- Overwriting the same run file twice keeps only the last contents. -/
theorem diskWrite_same {α : Type} (d : Disk α) (k : Nat) (v w : List α) :
    diskWrite (diskWrite d k v) k w = diskWrite d k w := by
  simp [diskWrite, List.filter_append, List.filter_filter]

/-- `appendAll` distributes over list append. -/
theorem appendAll_append {α : Type} (st : HistoryState α) (L M : List α) :
    appendAll st (L ++ M) = appendAll (appendAll st L) M :=
  List.foldl_append _ _ _ _

/-- A non-rotating append step (counter stays below capacity). -/
theorem addStatus_no_rotation {α : Type} (st : HistoryState α) (x : α)
    (h : st.entriesInCurrentFile + 1 < maxEntriesPerFile) :
    addStatus st x =
      ⟨st.currentRunNumber, st.entriesInCurrentFile + 1, st.statusHistory ++ [x],
       diskWrite st.disk st.currentRunNumber (st.statusHistory ++ [x])⟩ := by
  rw [addStatus, if_neg]
  omega

/-- A rotating append step: the full buffer is sealed into the current run
file and the new open buffer keeps the just-appended record. -/
theorem addStatus_rotates {α : Type} (st : HistoryState α) (x : α)
    (h : maxEntriesPerFile ≤ st.entriesInCurrentFile + 1) :
    addStatus st x =
      ⟨st.currentRunNumber + 1, 1, [x],
       diskWrite st.disk st.currentRunNumber (st.statusHistory ++ [x])⟩ := by
  rw [addStatus, if_pos]
  exact h

/-- A whole run of appends that never reaches the capacity: the buffer grows
by the appended records and the current run file holds the grown buffer. -/
theorem appendAll_no_rotation {α : Type} :
    ∀ (L : List α) (st : HistoryState α), L ≠ [] →
      st.entriesInCurrentFile + L.length < maxEntriesPerFile →
      appendAll st L =
        ⟨st.currentRunNumber, st.entriesInCurrentFile + L.length,
         st.statusHistory ++ L,
         diskWrite st.disk st.currentRunNumber (st.statusHistory ++ L)⟩
  | [], _, hne, _ => absurd rfl hne
  | [x], st, _, h => by
      have hx : st.entriesInCurrentFile + 1 < maxEntriesPerFile := by
        simpa using h
      simp [appendAll, addStatus_no_rotation st x hx]
  | x :: y :: L, st, _, h => by
      have hx : st.entriesInCurrentFile + 1 < maxEntriesPerFile := by
        simp only [List.length_cons] at h
        omega
      have hrest := appendAll_no_rotation (y :: L)
        ⟨st.currentRunNumber, st.entriesInCurrentFile + 1, st.statusHistory ++ [x],
         diskWrite st.disk st.currentRunNumber (st.statusHistory ++ [x])⟩
        (by simp)
        (by simp only [List.length_cons] at h ⊢; omega)
      have hstep : appendAll st (x :: y :: L)
          = appendAll (addStatus st x) (y :: L) := rfl
      rw [hstep, addStatus_no_rotation st x hx, hrest]
      have hlen : st.entriesInCurrentFile + 1 + (y :: L).length
          = st.entriesInCurrentFile + (x :: y :: L).length := by
        simp only [List.length_cons]
        omega
      rw [diskWrite_same, List.append_assoc, List.singleton_append, hlen]

/-- The canonical fresh-series scenario: `maxEntriesPerFile - 1` appends,
then the rotating append `x` (sealing chunk 1 with the full first
`maxEntriesPerFile` records and restarting the buffer from `x`), then up to
`maxEntriesPerFile - 2` further appends filling chunk 2. -/
theorem appendAll_fresh_scenario {α : Type} (L1 : List α) (x : α) (L2 : List α)
    (h1 : L1.length = maxEntriesPerFile - 1)
    (h2 : L2.length ≤ maxEntriesPerFile - 2) :
    appendAll (freshHistory α) (L1 ++ [x]) = ⟨2, 1, [x], [(1, L1 ++ [x])]⟩ ∧
    (L2 ≠ [] → appendAll (freshHistory α) (L1 ++ x :: L2)
      = ⟨2, 1 + L2.length, x :: L2, [(1, L1 ++ [x]), (2, x :: L2)]⟩) := by
  have hne : L1 ≠ [] := by
    intro hnil
    rw [hnil] at h1
    simp [maxEntriesPerFile] at h1
  have hA : appendAll (freshHistory α) L1
      = ⟨1, L1.length, L1, [(1, L1)]⟩ := by
    have := appendAll_no_rotation L1 (freshHistory α) hne
      (by simp only [freshHistory, h1, maxEntriesPerFile]; omega)
    simpa [freshHistory, diskWrite] using this
  have hB : appendAll (freshHistory α) (L1 ++ [x])
      = ⟨2, 1, [x], [(1, L1 ++ [x])]⟩ := by
    rw [appendAll_append, hA]
    have hrot := addStatus_rotates
      (⟨1, L1.length, L1, [(1, L1)]⟩ : HistoryState α) x
      (by simp only [h1, maxEntriesPerFile]; omega)
    simp only [appendAll, List.foldl_cons, List.foldl_nil, hrot]
    simp [diskWrite]
  refine ⟨hB, fun h3 => ?_⟩
  have hsplit : L1 ++ x :: L2 = (L1 ++ [x]) ++ L2 := by
    simp
  rw [hsplit, appendAll_append, hB]
  have := appendAll_no_rotation L2
    (⟨2, 1, [x], [(1, L1 ++ [x])]⟩ : HistoryState α) h3
    (by simp only [maxEntriesPerFile] at h2 ⊢; omega)
  rw [this]
  simp [diskWrite]

/-- `loadAllHistory` over the two-chunk directory. -/
theorem loadAllHistory_two {α : Type} (A B : List α) :
    loadAllHistory [(1, A), (2, B)] = A ++ B := by
  simp [loadAllHistory, sortByRun, insertByRun]

/-! ## C1 -/

/-- C1 counterexample: appending the 701 distinct records `0,…,700` to a
fresh series leaves chunk `run-1` with the first 700 records but chunk
`run-2` with *two* records `[699, 700]` — not exactly one — and the
concatenation of the persisted chunks contains the boundary record 699
twice, so the full series is not reproduced without duplication. -/
theorem chunk_rotation_counterexample :
    (appendAll (freshHistory ℕ) (List.range 701)).disk
      = [(1, List.range 700), (2, [699, 700])] ∧
    ((appendAll (freshHistory ℕ) (List.range 701)).disk.map (fun p => p.2.length))
      = [700, 2] ∧
    ¬ (loadAllHistory (appendAll (freshHistory ℕ) (List.range 701)).disk).Nodup := by
  have hdecomp : List.range 701 = List.range 699 ++ 699 :: [700] := by
    rw [List.range_succ, List.range_succ]
    simp
  have h700 : List.range 699 ++ [699] = List.range 700 := (List.range_succ 699).symm
  have h := (appendAll_fresh_scenario (List.range 699) 699 [700]
      (by simp [maxEntriesPerFile]) (by simp [maxEntriesPerFile])).2 (by simp)
  rw [hdecomp, h, h700]
  refine ⟨rfl, by simp, ?_⟩
  rw [loadAllHistory_two]
  intro hnodup
  rcases List.nodup_append.mp hnodup with ⟨-, -, hdisj⟩
  exact hdisj (show (699 : ℕ) ∈ List.range 700 from List.mem_range.mpr (by norm_num))
    (by simp)

/-- C1 amended: on a fresh series the 700th append seals chunk 1 holding all
700 records, but the newly opened chunk already contains the boundary
(700th) record rather than being empty; after `k` further appends
(`1 ≤ k ≤ 698`) the persisted chunks are `run-1 = ` the first 700 records
and `run-2 = ` the boundary record followed by the `k` new ones, so
concatenating chunks in ascending chunk order (as `loadAllHistory` does, and
hence any query across the boundary) returns the records of both chunks in
append order, with the boundary record duplicated and nothing else lost. -/
theorem chunk_rotation_amended {α : Type} (L1 : List α) (x : α) (L2 : List α)
    (h1 : L1.length = maxEntriesPerFile - 1)
    (h2 : L2.length ≤ maxEntriesPerFile - 2) (h3 : L2 ≠ []) :
    (appendAll (freshHistory α) (L1 ++ [x])).statusHistory = [x] ∧
    (appendAll (freshHistory α) (L1 ++ [x])).disk = [(1, L1 ++ [x])] ∧
    (appendAll (freshHistory α) (L1 ++ x :: L2)).disk
      = [(1, L1 ++ [x]), (2, x :: L2)] ∧
    loadAllHistory (appendAll (freshHistory α) (L1 ++ x :: L2)).disk
      = (L1 ++ [x]) ++ x :: L2 := by
  have h := appendAll_fresh_scenario L1 x L2 h1 h2
  have hB := h.1
  have hC := h.2 h3
  rw [hB, hC]
  exact ⟨rfl, rfl, rfl, loadAllHistory_two _ _⟩

/-- Witness for C1's amended theorem at the concrete series `0,…,700`. -/
theorem chunk_rotation_amended_witness :
    (List.range 699).length = maxEntriesPerFile - 1 ∧
    loadAllHistory (appendAll (freshHistory ℕ) (List.range 699 ++ 699 :: [700])).disk
      = (List.range 699 ++ [699]) ++ 699 :: [700] := by
  have h := chunk_rotation_amended (List.range 699) 699 [700]
      (by simp [maxEntriesPerFile]) (by simp [maxEntriesPerFile]) (by simp)
  exact ⟨by simp [maxEntriesPerFile], h.2.2.2⟩

/-! ## C2 -/

/-- C2: recovering over a cache whose highest chunk `run-1` holds exactly
`maxEntriesPerFile` records, the handler advances the run number to 2 and
zeroes the entry counter — but the loaded records stay in the open buffer,
so the very next append persists *all* of them again into `run-2`
(701 records), and concatenating the chunks then yields every old record
twice.  The claimed behaviour (an empty successor chunk; subsequent appends
persist only the new chunk's records) does not hold. -/
theorem startup_recovery_repersists {α : Type} (E : List α) (s : α)
    (hE : E.length = maxEntriesPerFile) :
    findLatestRunNumber ⟨1, 0, [], [(1, E)]⟩ = ⟨2, 0, E, [(1, E)]⟩ ∧
    (addStatus (findLatestRunNumber ⟨1, 0, [], [(1, E)]⟩) s).disk
      = [(1, E), (2, E ++ [s])] ∧
    loadAllHistory (addStatus (findLatestRunNumber ⟨1, 0, [], [(1, E)]⟩) s).disk
      = E ++ (E ++ [s]) := by
  have hfind : findLatestRunNumber ⟨1, 0, [], [(1, E)]⟩
      = (⟨2, 0, E, [(1, E)]⟩ : HistoryState α) := by
    simp [findLatestRunNumber, diskGet, hE]
  have hadd : addStatus (⟨2, 0, E, [(1, E)]⟩ : HistoryState α) s
      = ⟨2, 1, E ++ [s], [(1, E), (2, E ++ [s])]⟩ := by
    have := addStatus_no_rotation (⟨2, 0, E, [(1, E)]⟩ : HistoryState α) s
      (by simp [maxEntriesPerFile])
    rw [this]
    simp [diskWrite]
  rw [hfind, hadd]
  exact ⟨rfl, rfl, loadAllHistory_two _ _⟩

/-- Witness for C2 at the concrete chunk `0,…,699` and append `999`. -/
theorem startup_recovery_repersists_witness :
    (List.range 700).length = maxEntriesPerFile ∧
    loadAllHistory
        (addStatus (findLatestRunNumber ⟨1, 0, [], [(1, List.range 700)]⟩) 999).disk
      = List.range 700 ++ (List.range 700 ++ [999]) := by
  have h := startup_recovery_repersists (List.range 700) 999
      (by simp [maxEntriesPerFile])
  exact ⟨by simp [maxEntriesPerFile], h.2.2⟩

end VoidLens
